import Mathlib

/-
Verification of the fincalc core (src/index.js, v0.2.0) against its
natural-language specification.

Modelling conventions.
* Finite JS doubles are idealised as exact rationals; rounding and overflow
  of finite values are not modelled.  The special values NaN, Infinity and
  negative Infinity are modelled explicitly by FloatVal, arithmetic following the
  ECMAScript (IEEE 754) rules.
* Math.pow on a positive finite base and a non-integer exponent produces an
  irrational real in general; that single branch is abstracted by an oracle
  parameter pw : Q -> Q -> Q.  Every theorem below either avoids that branch
  (all exponents integral, or the base non-finite) or assumes only properties
  of pw that the real power function satisfies (such as positivity on a
  positive base).  All other branches of Math.pow are modelled exactly.
* Date strings are modelled by the ISO date-only grammar YYYY-MM-DD under the
  proleptic Gregorian calendar (the grammar the repository uses everywhere);
  any other string is an unparseable date.  A date-only ISO string denotes
  UTC midnight, so the millisecond difference of two such dates is the day
  difference times 86400000, as in the source.
* JS exceptions are modelled by Except Err.  The functions irr, bondPrice,
  bondYield, macaulayDuration and paybackPeriod only ever apply arithmetic to
  rationals with integral exponents, and the finiteness guards inside their
  loops cannot fire on exact rationals, so they are modelled directly over Q.
-/

namespace Fincalc

/-- Decidable equality of exception results, used to evaluate the model on
concrete inputs. -/
instance exceptDecEq {ε α : Type} [DecidableEq ε] [DecidableEq α] :
    DecidableEq (Except ε α) := fun x y =>
  match x, y with
  | .ok a, .ok b =>
      if h : a = b then .isTrue (congrArg Except.ok h)
      else .isFalse (fun hc => h (Except.ok.inj hc))
  | .error a, .error b =>
      if h : a = b then .isTrue (congrArg Except.error h)
      else .isFalse (fun hc => h (Except.error.inj hc))
  | .ok _, .error _ => .isFalse (fun hc => Except.noConfusion hc)
  | .error _, .ok _ => .isFalse (fun hc => Except.noConfusion hc)

/-- Error kinds of the core (section 7 of the spec; the throw sites in
src/index.js).  InvalidDate is kept because the source contains the throw
site, even though (as proved below) it is unreachable. -/
inductive Err
  | InvalidRate
  | InvalidDate
  | UnsupportedBasis
  | LengthMismatch
  | RootNotBracketed
deriving DecidableEq

/-- A JS number: an exact rational (idealised finite double), NaN, or a
signed infinity.  Signed zero is collapsed to fin 0. -/
inductive FloatVal
  | fin (q : ℚ)
  | nan
  | inf
  | neginf
deriving DecidableEq

namespace FloatVal

/-- Number.isFinite. -/
def isFiniteF : FloatVal → Bool
  | .fin _ => true
  | _ => false

/-- JS addition. -/
def addF : FloatVal → FloatVal → FloatVal
  | .nan, _ => .nan
  | _, .nan => .nan
  | .fin a, .fin b => .fin (a + b)
  | .inf, .neginf => .nan
  | .neginf, .inf => .nan
  | .inf, _ => .inf
  | _, .inf => .inf
  | .neginf, _ => .neginf
  | _, .neginf => .neginf

/-- JS subtraction. -/
def subF : FloatVal → FloatVal → FloatVal
  | .nan, _ => .nan
  | _, .nan => .nan
  | .fin a, .fin b => .fin (a - b)
  | .inf, .inf => .nan
  | .neginf, .neginf => .nan
  | .inf, _ => .inf
  | _, .inf => .neginf
  | .neginf, _ => .neginf
  | _, .neginf => .inf

/-- JS multiplication. -/
def mulF : FloatVal → FloatVal → FloatVal
  | .nan, _ => .nan
  | _, .nan => .nan
  | .fin a, .fin b => .fin (a * b)
  | .fin a, .inf => if 0 < a then .inf else if a < 0 then .neginf else .nan
  | .inf, .fin a => if 0 < a then .inf else if a < 0 then .neginf else .nan
  | .fin a, .neginf => if 0 < a then .neginf else if a < 0 then .inf else .nan
  | .neginf, .fin a => if 0 < a then .neginf else if a < 0 then .inf else .nan
  | .inf, .inf => .inf
  | .inf, .neginf => .neginf
  | .neginf, .inf => .neginf
  | .neginf, .neginf => .inf

/-- JS division (a zero denominator is a positive zero here: every zero the
model produces is +0). -/
def divF : FloatVal → FloatVal → FloatVal
  | .nan, _ => .nan
  | _, .nan => .nan
  | .fin a, .fin b =>
      if b = 0 then (if 0 < a then .inf else if a < 0 then .neginf else .nan)
      else .fin (a / b)
  | .fin _, .inf => .fin 0
  | .fin _, .neginf => .fin 0
  | .inf, .fin b => if 0 ≤ b then .inf else .neginf
  | .neginf, .fin b => if 0 ≤ b then .neginf else .inf
  | .inf, .inf => .nan
  | .inf, .neginf => .nan
  | .neginf, .inf => .nan
  | .neginf, .neginf => .nan

/-- Math.abs. -/
def absF : FloatVal → FloatVal
  | .fin a => .fin |a|
  | .nan => .nan
  | .inf => .inf
  | .neginf => .inf

/-- JS strict less-than; false whenever either side is NaN. -/
def ltF : FloatVal → FloatVal → Bool
  | .fin a, .fin b => decide (a < b)
  | .fin _, .inf => true
  | .neginf, .fin _ => true
  | .neginf, .inf => true
  | _, _ => false

/-- JS less-or-equal; false whenever either side is NaN. -/
def leF : FloatVal → FloatVal → Bool
  | .fin a, .fin b => decide (a ≤ b)
  | .fin _, .inf => true
  | .neginf, .fin _ => true
  | .neginf, .inf => true
  | .inf, .inf => true
  | .neginf, .neginf => true
  | _, _ => false

/-- Is the rational an odd integer (used by the sign rules of Math.pow). -/
def isOddIntQ (q : ℚ) : Bool := q.den == 1 && q.num % 2 ≠ 0

/-- Math.pow following the ECMAScript Number::exponentiate rules.  The only
branch with no exact rational value, a positive finite base with a finite
non-integer exponent, is delegated to the oracle pw. -/
def powF (pw : ℚ → ℚ → ℚ) : FloatVal → FloatVal → FloatVal
  | _, .nan => .nan
  | b, .fin q =>
      if q = 0 then .fin 1
      else
        match b with
        | .nan => .nan
        | .inf => if 0 < q then .inf else .fin 0
        | .neginf =>
            if 0 < q then (if isOddIntQ q then .neginf else .inf) else .fin 0
        | .fin a =>
            if a = 0 then (if 0 < q then .fin 0 else .inf)
            else if q.den = 1 then .fin (a ^ q.num)
            else if a < 0 then .nan
            else .fin (pw a q)
  | b, .inf =>
      match b with
      | .nan => .nan
      | .inf => .inf
      | .neginf => .inf
      | .fin a => if |a| = 1 then .nan else if 1 < |a| then .inf else .fin 0
  | b, .neginf =>
      match b with
      | .nan => .nan
      | .inf => .fin 0
      | .neginf => .fin 0
      | .fin a => if |a| = 1 then .nan else if 1 < |a| then .fin 0 else .inf

end FloatVal

open FloatVal

/-- A parsed calendar date. -/
structure Date where
  year : ℤ
  month : ℕ
  day : ℕ
deriving DecidableEq

/-- Numeric value of a decimal digit character. -/
def digitVal (c : Char) : ℕ := c.toNat - 48

/-- Gregorian leap year. -/
def isLeap (y : ℤ) : Bool := (y % 4 == 0 && y % 100 != 0) || y % 400 == 0

/-- Length of a month. -/
def monthLen (y : ℤ) (m : ℕ) : ℕ :=
  if m = 2 then (if isLeap y then 29 else 28)
  else if m = 4 ∨ m = 6 ∨ m = 9 ∨ m = 11 then 30
  else 31

/-- Parse an ISO YYYY-MM-DD string to a valid calendar date, the grammar
new Date(...) is given throughout this repository; out-of-range components
(such as 2025-02-30) give an invalid date, exactly as in ECMAScript. -/
def parseDate (s : String) : Option Date :=
  match s.toList with
  | [y1, y2, y3, y4, s1, m1, m2, s2, d1, d2] =>
      if (y1.isDigit && y2.isDigit && y3.isDigit && y4.isDigit &&
          (s1 == '-') && m1.isDigit && m2.isDigit && (s2 == '-') &&
          d1.isDigit && d2.isDigit) then
        let y : ℤ := ((1000 * digitVal y1 + 100 * digitVal y2 +
                       10 * digitVal y3 + digitVal y4 : ℕ) : ℤ)
        let mo := 10 * digitVal m1 + digitVal m2
        let da := 10 * digitVal d1 + digitVal d2
        if 1 ≤ mo ∧ mo ≤ 12 ∧ 1 ≤ da ∧ da ≤ monthLen y mo then
          some ⟨y, mo, da⟩
        else none
      else none
  | _ => none

/-- Leap years in the interval [1, y] for y ≥ 0 (floor division for the
general integer case). -/
def leapCount (y : ℤ) : ℤ := Int.fdiv y 4 - Int.fdiv y 100 + Int.fdiv y 400

/-- Days from the start of the year to the start of month m. -/
def daysBeforeMonth (leap : Bool) (m : ℕ) : ℤ :=
  let k : ℤ := if leap then 1 else 0
  if m = 1 then 0 else if m = 2 then 31 else if m = 3 then 59 + k
  else if m = 4 then 90 + k else if m = 5 then 120 + k
  else if m = 6 then 151 + k else if m = 7 then 181 + k
  else if m = 8 then 212 + k else if m = 9 then 243 + k
  else if m = 10 then 273 + k else if m = 11 then 304 + k else 334 + k

/-- Days since the Unix epoch 1970-01-01 (proleptic Gregorian, UTC). -/
def epochDays (d : Date) : ℤ :=
  365 * (d.year - 1970) + (leapCount (d.year - 1) - 477) +
    daysBeforeMonth (isLeap d.year) d.month + (d.day : ℤ) - 1

/-- getTime() of new Date(s): milliseconds since the epoch, NaN when the
string does not parse (a date-only ISO string denotes UTC midnight). -/
def dateMs (s : String) : FloatVal :=
  match parseDate s with
  | some d => .fin (86400000 * (epochDays d : ℚ))
  | none => .nan

/-- epochDays of a parsed date, when the string parses. -/
def parseDays (s : String) : Option ℤ := (parseDate s).map epochDays

/-- The day-count year fraction of src/index.js.  The guard in the source,
if (Number.isNaN(D0) || Number.isNaN(D1)) throw new Error(...), applies
Number.isNaN to a Date object; Number.isNaN does not coerce its argument and
returns false on every non-number, so the guard never fires and the
InvalidDate throw is dead code.  An unparseable date therefore flows on as
a NaN timestamp, which is what this model computes. -/
def yearFrac (d0 d1 basis : String) : Except Err FloatVal :=
  if basis = "ACT/365" then
    .ok (divF (subF (dateMs d1) (dateMs d0)) (.fin (1000 * 60 * 60 * 24 * 365)))
  else if basis = "ACT/360" then
    .ok (divF (subF (dateMs d1) (dateMs d0)) (.fin (1000 * 60 * 60 * 24 * 360)))
  else if basis = "30E/360" then
    .ok (match parseDate d0, parseDate d1 with
      | some D0, some D1 =>
          .fin (((360 * (D1.year - D0.year) + 30 * ((D1.month : ℤ) - (D0.month : ℤ)) +
                 ((min D1.day 30 : ℤ) - (min D0.day 30 : ℤ))) : ℤ) / (360 : ℚ))
      | _, _ => .nan)
  else .error .UnsupportedBasis

/-- The indexed reduce of npv: acc + cf / Math.pow(1 + rate, t).  The base
argument is the already-computed 1 + rate. -/
def npvGo (pw : ℚ → ℚ → ℚ) (base : FloatVal) : List ℚ → ℕ → FloatVal → FloatVal
  | [], _, acc => acc
  | cf :: rest, t, acc =>
      npvGo pw base rest (t + 1)
        (addF acc (divF (.fin cf) (powF pw base (.fin (t : ℚ)))))

/-- npv(rate, cashflows): throws InvalidRate on a non-finite rate, otherwise
the discounted sum. -/
def npv (pw : ℚ → ℚ → ℚ) (rate : FloatVal) (cfs : List ℚ) : Except Err FloatVal :=
  if isFiniteF rate then .ok (npvGo pw (addF (.fin 1) rate) cfs 0 (.fin 0))
  else .error .InvalidRate

/-- The reduce of xnpv over the index-paired cashflows and dates;
t0 is dates[0].  The first yearFrac failure (an unsupported basis) aborts,
matching the JS throw order. -/
def xnpvGo (pw : ℚ → ℚ → ℚ) (rate : FloatVal) (t0 basis : String) :
    List (ℚ × String) → FloatVal → Except Err FloatVal
  | [], acc => .ok acc
  | (cf, di) :: rest, acc =>
      match yearFrac t0 di basis with
      | .error e => .error e
      | .ok yf =>
          xnpvGo pw rate t0 basis rest
            (addF acc (divF (.fin cf) (powF pw (addF (.fin 1) rate) yf)))

/-- xnpv(rate, cashflows, dates, basis). -/
def xnpv (pw : ℚ → ℚ → ℚ) (rate : FloatVal) (cfs : List ℚ) (dates : List String)
    (basis : String) : Except Err FloatVal :=
  if cfs.length ≠ dates.length then .error .LengthMismatch
  else xnpvGo pw rate (dates.headD ("")) basis (cfs.zip dates) (.fin 0)

/-- The Newton phase of xirr (at most 50 iterations; the fuel is the first
explicit argument).  The source computes the central-difference derivative on
the same line as the payoff, before the convergence test; both are evaluated
here only when needed, which is observably equal because the payoff's error
behaviour does not depend on the rate. -/
def xirrNewton (f : ℚ → Except Err FloatVal) : ℕ → ℚ → Except Err (Option ℚ)
  | 0, _ => .ok none
  | n + 1, r =>
      match f r with
      | .error e => .error e
      | .ok y =>
          if ltF (absF y) (.fin (1 / 100000000)) then .ok (some r)
          else
            match f (r + 1 / 1000000), f (r - 1 / 1000000) with
            | .error e, _ => .error e
            | .ok _, .error e => .error e
            | .ok fp, .ok fm =>
                let dy := divF (subF fp fm) (.fin (2 / 1000000))
                if isFiniteF dy = false ∨ dy = .fin 0 then .ok none
                else
                  match subF (.fin r) (divF y dy) with
                  | .fin r1 =>
                      if r1 ≤ -(999999 / 1000000) then .ok none
                      else xirrNewton f n r1
                  | _ => .ok none

/-- The bisection phase of xirr (the fuel counts the remaining iterations of
the 200-iteration loop). -/
def xirrBisect (f : ℚ → Except Err FloatVal) :
    ℕ → ℚ → ℚ → FloatVal → FloatVal → Except Err ℚ
  | 0, lo, hi, _, _ => .ok ((lo + hi) / 2)
  | n + 1, lo, hi, flo, fhi =>
      match f ((lo + hi) / 2) with
      | .error e => .error e
      | .ok fm =>
          if ltF (absF fm) (.fin (1 / 100000000)) then .ok ((lo + hi) / 2)
          else if leF (mulF flo fm) (.fin 0) then
            xirrBisect f n lo ((lo + hi) / 2) flo fm
          else xirrBisect f n ((lo + hi) / 2) hi fm fhi

/-- The bisection fallback of xirr (the code after the Newton loop): evaluate
the payoff at the bracket ends -0.9 and 10, throw RootNotBracketed when
flo * fhi > 0 in the JS sense, else run the 200-iteration bisection. -/
def xirrFallback (pw : ℚ → ℚ → ℚ) (cfs : List ℚ) (dates : List String)
    (basis : String) : Except Err ℚ :=
  let f := fun r => xnpv pw (.fin r) cfs dates basis
  match f (-(9 / 10)), f 10 with
  | .error e, _ => .error e
  | .ok _, .error e => .error e
  | .ok flo, .ok fhi =>
      if ltF (.fin 0) (mulF flo fhi) then .error .RootNotBracketed
      else xirrBisect f 200 (-(9 / 10)) 10 flo fhi

/-- xirr(cashflows, dates, guess, basis): Newton, then the bisection
fallback. -/
def xirr (pw : ℚ → ℚ → ℚ) (cfs : List ℚ) (dates : List String) (guess : ℚ)
    (basis : String) : Except Err ℚ :=
  let f := fun r => xnpv pw (.fin r) cfs dates basis
  match xirrNewton f 50 guess with
  | .error e => .error e
  | .ok (some r) => .ok r
  | .ok none => xirrFallback pw cfs dates basis

/-- The indexed reduce of the local payoff f inside irr (the npv formula
without the finiteness guard). -/
def irrGo (r : ℚ) : List ℚ → ℕ → ℚ → ℚ
  | [], _, acc => acc
  | cf :: rest, t, acc => irrGo r rest (t + 1) (acc + cf / (1 + r) ^ t)

/-- The payoff f of irr. -/
def irrPayoff (cfs : List ℚ) (r : ℚ) : ℚ := irrGo r cfs 0 0

/-- The indexed reduce of the closed-form derivative df inside irr. -/
def irrDerivGo (r : ℚ) : List ℚ → ℕ → ℚ → ℚ
  | [], _, acc => acc
  | cf :: rest, t, acc =>
      irrDerivGo r rest (t + 1)
        (acc + (if t = 0 then 0 else -(t : ℚ) * cf / (1 + r) ^ (t + 1)))

/-- The derivative df of irr. -/
def irrDeriv (cfs : List ℚ) (r : ℚ) : ℚ := irrDerivGo r cfs 0 0

/-- The Newton phase of irr (at most 50 iterations; tolerance 1e-10).  On
exact rationals the finiteness guards of the source cannot fire. -/
def irrNewton (cfs : List ℚ) : ℕ → ℚ → Option ℚ
  | 0, _ => none
  | n + 1, r =>
      let y := irrPayoff cfs r
      if |y| < 1 / 10000000000 then some r
      else
        let dy := irrDeriv cfs r
        if dy = 0 then none
        else
          let r1 := r - y / dy
          if r1 ≤ -(999999 / 1000000) then none
          else irrNewton cfs n r1

/-- The bisection phase of irr. -/
def irrBisect (cfs : List ℚ) : ℕ → ℚ → ℚ → ℚ → ℚ → ℚ
  | 0, lo, hi, _, _ => (lo + hi) / 2
  | n + 1, lo, hi, flo, fhi =>
      let fm := irrPayoff cfs ((lo + hi) / 2)
      if |fm| < 1 / 10000000000 then (lo + hi) / 2
      else if flo * fm ≤ 0 then irrBisect cfs n lo ((lo + hi) / 2) flo fm
      else irrBisect cfs n ((lo + hi) / 2) hi fm fhi

/-- The bisection fallback of irr (the code after the Newton loop). -/
def irrFallback (cfs : List ℚ) : Except Err ℚ :=
  let flo := irrPayoff cfs (-(9 / 10))
  let fhi := irrPayoff cfs 10
  if 0 < flo * fhi then .error .RootNotBracketed
  else .ok (irrBisect cfs 200 (-(9 / 10)) 10 flo fhi)

/-- irr(cashflows, guess): Newton then the bisection fallback on [-0.9, 10];
the source default guess is 0.1 and is passed explicitly here. -/
def irr (cfs : List ℚ) (guess : ℚ) : Except Err ℚ :=
  match irrNewton cfs 50 guess with
  | some r => .ok r
  | none => irrFallback cfs

/-- The scan of paybackPeriod: cum is the running cumulative sum, t the
current index; Infinity is the never-recovers sentinel. -/
def paybackGo : List ℚ → ℚ → ℕ → FloatVal
  | [], _, _ => .inf
  | cf :: rest, cum, t =>
      if 0 ≤ cum + cf then
        .fin ((t : ℚ) - 1 + (if cf ≠ 0 then (-cum) / cf else 0))
      else paybackGo rest (cum + cf) (t + 1)

/-- paybackPeriod(cashflows). -/
def paybackPeriod (cfs : List ℚ) : FloatVal := paybackGo cfs 0 0

/-- profitabilityIndex(rate, cashflows): npv of cashflows.slice(1) divided by
Math.abs(cashflows[0] || 0); on rational cashflow entries the JS expression
c[0] || 0 is the head of the list, or 0 when the list is empty. -/
def profitabilityIndex (pw : ℚ → ℚ → ℚ) (rate : FloatVal) (cfs : List ℚ) :
    Except Err FloatVal :=
  match npv pw rate (cfs.drop 1) with
  | .error e => .error e
  | .ok pv => .ok (divF pv (.fin |cfs.headD 0|))

/-- Math.round: round half toward positive infinity, that is the floor of
x + 1/2 (written through Int.fdiv so that it evaluates by kernel
reduction). -/
def jsRound (x : ℚ) : ℤ := Int.fdiv (x + 1 / 2).num ((x + 1 / 2).den : ℤ)

/-- bondPrice(face, couponRate, yieldRate, years, freq); the source default
freq = 1 is passed explicitly. -/
def bondPrice (face couponRate yieldRate years freq : ℚ) : ℚ :=
  let c := couponRate * face / freq
  let m : ℤ := jsRound (years * freq)
  let y := yieldRate / freq
  ((List.range' 1 m.toNat).foldl (fun pv t => pv + c / (1 + y) ^ t) 0) +
    face / (1 + y) ^ m

/-- The payoff f inside bondYield: the price at per-period yield y minus the
target price. -/
def bondYieldPayoff (c face : ℚ) (m : ℤ) (price y : ℚ) : ℚ :=
  ((List.range' 1 m.toNat).foldl (fun pv t => pv + c / (1 + y) ^ t) 0) +
    face / (1 + y) ^ m - price

/-- The Newton phase of bondYield: central finite difference with step 1e-6,
tolerance 1e-8 on the price residual. -/
def bondYieldNewton (c face : ℚ) (m : ℤ) (price : ℚ) : ℕ → ℚ → Option ℚ
  | 0, _ => none
  | n + 1, y =>
      let fy := bondYieldPayoff c face m price y
      if |fy| < 1 / 100000000 then some y
      else
        let dy := (bondYieldPayoff c face m price (y + 1 / 1000000) -
                   bondYieldPayoff c face m price (y - 1 / 1000000)) / (2 / 1000000)
        if dy = 0 then none
        else
          let y1 := y - fy / dy
          if y1 ≤ -(999999 / 1000000) then none
          else bondYieldNewton c face m price n y1

/-- The bisection phase of bondYield (per-period yield). -/
def bondYieldBisect (c face : ℚ) (m : ℤ) (price : ℚ) : ℕ → ℚ → ℚ → ℚ → ℚ → ℚ
  | 0, lo, hi, _, _ => (lo + hi) / 2
  | n + 1, lo, hi, flo, fhi =>
      let fm := bondYieldPayoff c face m price ((lo + hi) / 2)
      if |fm| < 1 / 100000000 then (lo + hi) / 2
      else if flo * fm ≤ 0 then bondYieldBisect c face m price n lo ((lo + hi) / 2) flo fm
      else bondYieldBisect c face m price n ((lo + hi) / 2) hi fm fhi

/-- bondYield(face, couponRate, price, years, freq): Newton seeded at
0.05 / freq, bisection fallback on [1e-6, 1]; returns the per-period result
scaled by freq. -/
def bondYield (face couponRate price years freq : ℚ) : Except Err ℚ :=
  let m : ℤ := jsRound (years * freq)
  let c := couponRate * face / freq
  match bondYieldNewton c face m price 50 (1 / 20 / freq) with
  | some y => .ok (y * freq)
  | none =>
      let flo := bondYieldPayoff c face m price (1 / 1000000)
      let fhi := bondYieldPayoff c face m price 1
      if 0 < flo * fhi then .error .RootNotBracketed
      else .ok (bondYieldBisect c face m price 200 (1 / 1000000) 1 flo fhi * freq)

/-- The loop body of macaulayDuration: cashflow c per period, c + face at
period m, accumulating (pvTotal, tWeighted). -/
def macaulayStep (c face : ℚ) (m : ℕ) (y freq : ℚ) (acc : ℚ × ℚ) (t : ℕ) : ℚ × ℚ :=
  let cf := if t < m then c else c + face
  let pv := cf / (1 + y) ^ t
  (acc.1 + pv, acc.2 + ((t : ℚ) / freq) * pv)

/-- macaulayDuration(face, couponRate, yieldRate, years, freq): the
time-weighted present value over the total present value. -/
def macaulayDuration (face couponRate yieldRate years freq : ℚ) : ℚ :=
  let c := couponRate * face / freq
  let m := (jsRound (years * freq)).toNat
  let y := yieldRate / freq
  let acc := (List.range' 1 m).foldl (macaulayStep c face m y freq) ((0 : ℚ), (0 : ℚ))
  acc.2 / acc.1

/-- A concrete power oracle for witnesses: exact on integer exponents,
positive on a positive base. -/
def powIntQ (b e : ℚ) : ℚ :=
  if e.den = 1 then b ^ e.num else if 0 < b then 1 else 0

/-- The three supported day-count basis tags. -/
def supportedBases : List String := ["ACT/365", "ACT/360", "30E/360"]

section Lemmas

open FloatVal

lemma addF_fin (a b : ℚ) : addF (.fin a) (.fin b) = .fin (a + b) := rfl

lemma addF_one_fin (s : ℚ) : addF (.fin 1) (.fin s) = .fin (1 + s) := rfl

lemma subF_fin (a b : ℚ) : subF (.fin a) (.fin b) = .fin (a - b) := rfl

lemma absF_fin (a : ℚ) : absF (.fin a) = .fin |a| := rfl

lemma divF_fin_of_ne (a b : ℚ) (hb : b ≠ 0) :
    divF (.fin a) (.fin b) = .fin (a / b) := by
  simp [divF, hb]

lemma divF_fin_zero (a : ℚ) :
    divF (.fin a) (.fin 0) =
      (if 0 < a then FloatVal.inf else if a < 0 then FloatVal.neginf else FloatVal.nan) := by
  simp [divF]

lemma ltF_fin (a b : ℚ) : ltF (.fin a) (.fin b) = decide (a < b) := rfl

lemma powF_e_nan (pw : ℚ → ℚ → ℚ) (b : FloatVal) : powF pw b .nan = .nan := by
  cases b <;> rfl

lemma powF_e_zero (pw : ℚ → ℚ → ℚ) (b : FloatVal) : powF pw b (.fin 0) = .fin 1 := by
  cases b <;> simp [powF]

lemma powF_fin_natCast (pw : ℚ → ℚ → ℚ) (a : ℚ) (ha : a ≠ 0) (n : ℕ) :
    powF pw (.fin a) (.fin (n : ℚ)) = .fin (a ^ n) := by
  rcases Nat.eq_zero_or_pos n with hn | hn
  · subst hn
    simpa using powF_e_zero pw (.fin a)
  · have hq : ((n : ℚ)) ≠ 0 := Nat.cast_ne_zero.mpr (Nat.pos_iff_ne_zero.mp hn)
    simp [powF, hq, ha, Rat.den_natCast, Rat.num_natCast, zpow_natCast]

lemma powF_fin_pos (pw : ℚ → ℚ → ℚ) (hpw : ∀ b e, 0 < b → 0 < pw b e)
    (a q : ℚ) (ha : 0 < a) :
    ∃ p : ℚ, powF pw (.fin a) (.fin q) = .fin p ∧ 0 < p := by
  by_cases hq : q = 0
  · exact ⟨1, by simp [hq, powF_e_zero], one_pos⟩
  · have ha0 : a ≠ 0 := ne_of_gt ha
    have hna : ¬ a < 0 := not_lt.mpr (le_of_lt ha)
    by_cases hd : q.den = 1
    · exact ⟨a ^ q.num, by simp [powF, hq, ha0, hd], zpow_pos ha _⟩
    · exact ⟨pw a q, by simp [powF, hq, ha0, hd, hna], hpw a q ha⟩

lemma mem_supportedBases {basis : String} (hb : basis ∈ supportedBases) :
    basis = "ACT/365" ∨ basis = "ACT/360" ∨ basis = "30E/360" := by
  simpa [supportedBases] using hb

lemma xnpvGo_cons_ok {pw : ℚ → ℚ → ℚ} {rate : FloatVal} {t0 basis di : String}
    {cf : ℚ} {rest : List (ℚ × String)} {acc y : FloatVal}
    (hy : yearFrac t0 di basis = .ok y) :
    xnpvGo pw rate t0 basis ((cf, di) :: rest) acc =
      xnpvGo pw rate t0 basis rest
        (addF acc (divF (.fin cf) (powF pw (addF (.fin 1) rate) y))) := by
  rw [xnpvGo, hy]

lemma yearFrac_act365 (d0 d1 : String) :
    yearFrac d0 d1 ("ACT/365") =
      .ok (divF (subF (dateMs d1) (dateMs d0)) (.fin (1000 * 60 * 60 * 24 * 365))) := by
  simp [yearFrac]

lemma yearFrac_act360 (d0 d1 : String) :
    yearFrac d0 d1 ("ACT/360") =
      .ok (divF (subF (dateMs d1) (dateMs d0)) (.fin (1000 * 60 * 60 * 24 * 360))) := by
  rw [yearFrac, if_neg (by decide), if_pos rfl]

lemma yearFrac_ok_of_supported {basis : String} (hb : basis ∈ supportedBases)
    (d0 d1 : String) : ∃ v, yearFrac d0 d1 basis = .ok v := by
  rcases mem_supportedBases hb with h | h | h
  · exact ⟨_, by rw [h, yearFrac_act365]⟩
  · exact ⟨_, by rw [h, yearFrac_act360]⟩
  · exact ⟨_, by rw [h, yearFrac, if_neg (by decide), if_neg (by decide), if_pos rfl]⟩

lemma yearFrac_fin_of_valid {basis : String} (hb : basis ∈ supportedBases)
    {d0 d1 : String} {D0 D1 : Date} (h0 : parseDate d0 = some D0)
    (h1 : parseDate d1 = some D1) : ∃ q : ℚ, yearFrac d0 d1 basis = .ok (.fin q) := by
  have hms0 : dateMs d0 = .fin (86400000 * (epochDays D0 : ℚ)) := by simp [dateMs, h0]
  have hms1 : dateMs d1 = .fin (86400000 * (epochDays D1 : ℚ)) := by simp [dateMs, h1]
  rcases mem_supportedBases hb with h | h | h
  · subst h
    have h365 : yearFrac d0 d1 ("ACT/365") =
        .ok (.fin ((86400000 * (epochDays D1 : ℚ) - 86400000 * (epochDays D0 : ℚ)) /
          (1000 * 60 * 60 * 24 * 365))) := by
      rw [yearFrac_act365, hms0, hms1, subF_fin,
        divF_fin_of_ne _ _ (show (1000 * 60 * 60 * 24 * 365 : ℚ) ≠ 0 by norm_num)]
    exact ⟨_, h365⟩
  · subst h
    have h360 : yearFrac d0 d1 ("ACT/360") =
        .ok (.fin ((86400000 * (epochDays D1 : ℚ) - 86400000 * (epochDays D0 : ℚ)) /
          (1000 * 60 * 60 * 24 * 360))) := by
      rw [yearFrac_act360, hms0, hms1, subF_fin,
        divF_fin_of_ne _ _ (show (1000 * 60 * 60 * 24 * 360 : ℚ) ≠ 0 by norm_num)]
    exact ⟨_, h360⟩
  · subst h
    have h30e : yearFrac d0 d1 ("30E/360") =
        .ok (.fin (((360 * (D1.year - D0.year) + 30 * ((D1.month : ℤ) - (D0.month : ℤ)) +
          ((min D1.day 30 : ℤ) - (min D0.day 30 : ℤ)) : ℤ) : ℚ) / (360 : ℚ))) := by
      rw [yearFrac, if_neg (by decide), if_neg (by decide), if_pos rfl, h0, h1]
    exact ⟨_, h30e⟩

lemma yearFrac_self_of_valid {basis : String} (hb : basis ∈ supportedBases)
    {d : String} {D : Date} (hd : parseDate d = some D) :
    yearFrac d d basis = .ok (.fin 0) := by
  have hms : dateMs d = .fin (86400000 * (epochDays D : ℚ)) := by simp [dateMs, hd]
  rcases mem_supportedBases hb with h | h | h
  · subst h
    rw [yearFrac_act365, hms, subF_fin, sub_self, divF_fin_of_ne _ _ (by norm_num),
      zero_div]
  · subst h
    rw [yearFrac_act360, hms, subF_fin, sub_self, divF_fin_of_ne _ _ (by norm_num),
      zero_div]
  · subst h
    rw [yearFrac, if_neg (by decide), if_neg (by decide), if_pos rfl, hd]
    norm_num

lemma xnpvGo_ok {basis : String} (hb : basis ∈ supportedBases)
    (pw : ℚ → ℚ → ℚ) (rate : FloatVal) (t0 : String) :
    ∀ (pairs : List (ℚ × String)) (acc : FloatVal),
      ∃ v, xnpvGo pw rate t0 basis pairs acc = .ok v := by
  intro pairs
  induction pairs with
  | nil => exact fun acc => ⟨acc, rfl⟩
  | cons p rest ih =>
      intro acc
      obtain ⟨y, hy⟩ := yearFrac_ok_of_supported hb t0 p.2
      obtain ⟨v, hv⟩ := ih (addF acc (divF (.fin p.1) (powF pw (addF (.fin 1) rate) y)))
      cases p with
      | mk cf di => exact ⟨v, by rw [xnpvGo_cons_ok hy, hv]⟩

lemma xnpvGo_lb {basis : String} (hb : basis ∈ supportedBases)
    {pw : ℚ → ℚ → ℚ} (hpw : ∀ b e, 0 < b → 0 < pw b e)
    {s : ℚ} (hs : 0 < 1 + s) {t0 : String} {Dt : Date}
    (ht0 : parseDate t0 = some Dt) :
    ∀ (pairs : List (ℚ × String)),
      (∀ p ∈ pairs, 0 < p.1 ∧ (parseDate p.2).isSome = true) →
      ∀ a : ℚ, ∃ v, xnpvGo pw (.fin s) t0 basis pairs (.fin a) = .ok (.fin v) ∧ a ≤ v := by
  intro pairs
  induction pairs with
  | nil => exact fun _ a => ⟨a, rfl, le_refl a⟩
  | cons p rest ih =>
      intro hmem a
      obtain ⟨hp1, hp2⟩ := hmem p (List.mem_cons_self p rest)
      obtain ⟨D, hD⟩ := Option.isSome_iff_exists.mp hp2
      obtain ⟨q, hq⟩ := yearFrac_fin_of_valid hb ht0 hD
      obtain ⟨pewe, hpe, hpepos⟩ := powF_fin_pos pw hpw (1 + s) q hs
      have hrest : ∀ p ∈ rest, 0 < p.1 ∧ (parseDate p.2).isSome = true :=
        fun x hx => hmem x (List.mem_cons_of_mem p hx)
      have hterm : 0 < p.1 / pewe := div_pos hp1 hpepos
      obtain ⟨v, hv, hav⟩ := ih hrest (a + p.1 / pewe)
      refine ⟨v, ?_, le_trans (le_add_of_nonneg_right (le_of_lt hterm)) hav⟩
      cases p with
      | mk cf di =>
          rw [xnpvGo_cons_ok hq, addF_one_fin, hpe,
            divF_fin_of_ne _ _ (ne_of_gt hpepos), addF_fin, hv]

lemma xnpvGo_ub {basis : String} (hb : basis ∈ supportedBases)
    {pw : ℚ → ℚ → ℚ} (hpw : ∀ b e, 0 < b → 0 < pw b e)
    {s : ℚ} (hs : 0 < 1 + s) {t0 : String} {Dt : Date}
    (ht0 : parseDate t0 = some Dt) :
    ∀ (pairs : List (ℚ × String)),
      (∀ p ∈ pairs, p.1 < 0 ∧ (parseDate p.2).isSome = true) →
      ∀ a : ℚ, ∃ v, xnpvGo pw (.fin s) t0 basis pairs (.fin a) = .ok (.fin v) ∧ v ≤ a := by
  intro pairs
  induction pairs with
  | nil => exact fun _ a => ⟨a, rfl, le_refl a⟩
  | cons p rest ih =>
      intro hmem a
      obtain ⟨hp1, hp2⟩ := hmem p (List.mem_cons_self p rest)
      obtain ⟨D, hD⟩ := Option.isSome_iff_exists.mp hp2
      obtain ⟨q, hq⟩ := yearFrac_fin_of_valid hb ht0 hD
      obtain ⟨pewe, hpe, hpepos⟩ := powF_fin_pos pw hpw (1 + s) q hs
      have hrest : ∀ p ∈ rest, p.1 < 0 ∧ (parseDate p.2).isSome = true :=
        fun x hx => hmem x (List.mem_cons_of_mem p hx)
      have hterm : p.1 / pewe < 0 := div_neg_of_neg_of_pos hp1 hpepos
      obtain ⟨v, hv, hav⟩ := ih hrest (a + p.1 / pewe)
      refine ⟨v, ?_, le_trans hav (by linarith)⟩
      cases p with
      | mk cf di =>
          rw [xnpvGo_cons_ok hq, addF_one_fin, hpe,
            divF_fin_of_ne _ _ (ne_of_gt hpepos), addF_fin, hv]

lemma npvGo_fin (pw : ℚ → ℚ → ℚ) {b : ℚ} (hb : b ≠ 0) :
    ∀ (l : List ℚ) (t : ℕ) (a : ℚ),
      npvGo pw (.fin b) l t (.fin a) =
        .fin (a + ∑ j ∈ Finset.range l.length, l.getD j 0 / b ^ (t + j)) := by
  intro l
  induction l with
  | nil => intro t a; simp [npvGo]
  | cons cf rest ih =>
      intro t a
      have hstep : npvGo pw (.fin b) (cf :: rest) t (.fin a) =
          npvGo pw (.fin b) rest (t + 1) (.fin (a + cf / b ^ t)) := by
        rw [npvGo, powF_fin_natCast pw b hb t,
          divF_fin_of_ne _ _ (pow_ne_zero t hb), addF_fin]
      rw [hstep, ih]
      rw [List.length_cons, Finset.sum_range_succ']
      simp only [List.getD_cons_zero, List.getD_cons_succ, add_zero,
        show ∀ j, t + 1 + j = t + (j + 1) from fun j => by omega]
      exact congrArg FloatVal.fin (by ring)

lemma npv_fin (pw : ℚ → ℚ → ℚ) {r : ℚ} (h : 1 + r ≠ 0) (cfs : List ℚ) :
    npv pw (.fin r) cfs =
      .ok (.fin (∑ t ∈ Finset.range cfs.length, cfs.getD t 0 / (1 + r) ^ t)) := by
  rw [npv]
  simp only [isFiniteF, if_true]
  rw [addF_one_fin, npvGo_fin pw h cfs 0 0]
  simp

lemma irrGo_lb {r : ℚ} (hr : 0 < 1 + r) :
    ∀ (l : List ℚ), (∀ x ∈ l, 0 < x) → ∀ (t : ℕ) (a : ℚ), a ≤ irrGo r l t a := by
  intro l
  induction l with
  | nil => intro _ t a; simp [irrGo]
  | cons cf rest ih =>
      intro hmem t a
      have hcf : 0 < cf := hmem cf (List.mem_cons_self cf rest)
      have hterm : 0 < cf / (1 + r) ^ t := div_pos hcf (pow_pos hr t)
      have := ih (fun x hx => hmem x (List.mem_cons_of_mem cf hx)) (t + 1) (a + cf / (1 + r) ^ t)
      calc a ≤ a + cf / (1 + r) ^ t := le_add_of_nonneg_right (le_of_lt hterm)
        _ ≤ irrGo r rest (t + 1) (a + cf / (1 + r) ^ t) := this
        _ = irrGo r (cf :: rest) t a := by rw [irrGo]

lemma irrGo_ub {r : ℚ} (hr : 0 < 1 + r) :
    ∀ (l : List ℚ), (∀ x ∈ l, x < 0) → ∀ (t : ℕ) (a : ℚ), irrGo r l t a ≤ a := by
  intro l
  induction l with
  | nil => intro _ t a; simp [irrGo]
  | cons cf rest ih =>
      intro hmem t a
      have hcf : cf < 0 := hmem cf (List.mem_cons_self cf rest)
      have hterm : cf / (1 + r) ^ t < 0 := div_neg_of_neg_of_pos hcf (pow_pos hr t)
      have := ih (fun x hx => hmem x (List.mem_cons_of_mem cf hx)) (t + 1) (a + cf / (1 + r) ^ t)
      calc irrGo r (cf :: rest) t a = irrGo r rest (t + 1) (a + cf / (1 + r) ^ t) := by
            rw [irrGo]
        _ ≤ a + cf / (1 + r) ^ t := this
        _ ≤ a := by linarith

lemma irrPayoff_lb {r c0 : ℚ} {rest : List ℚ} (hr : 0 < 1 + r)
    (hmem : ∀ x ∈ c0 :: rest, 0 < x) : c0 ≤ irrPayoff (c0 :: rest) r := by
  have h1 : irrPayoff (c0 :: rest) r = irrGo r rest 1 c0 := by
    rw [irrPayoff, irrGo]
    norm_num
  rw [h1]
  exact irrGo_lb hr rest (fun x hx => hmem x (List.mem_cons_of_mem c0 hx)) 1 c0

lemma irrPayoff_ub {r c0 : ℚ} {rest : List ℚ} (hr : 0 < 1 + r)
    (hmem : ∀ x ∈ c0 :: rest, x < 0) : irrPayoff (c0 :: rest) r ≤ c0 := by
  have h1 : irrPayoff (c0 :: rest) r = irrGo r rest 1 c0 := by
    rw [irrPayoff, irrGo]
    norm_num
  rw [h1]
  exact irrGo_ub hr rest (fun x hx => hmem x (List.mem_cons_of_mem c0 hx)) 1 c0

lemma irrNewton_none {cfs : List ℚ}
    (hbig : ∀ s, -1 < s → 1 / 10000000000 ≤ |irrPayoff cfs s|) :
    ∀ (n : ℕ) (r : ℚ), -1 < r → irrNewton cfs n r = none := by
  intro n
  induction n with
  | zero => intro r _; rfl
  | succ n ih =>
      intro r hr
      rw [irrNewton]
      rw [if_neg (not_lt.mpr (hbig r hr))]
      by_cases hdy : irrDeriv cfs r = 0
      · rw [if_pos hdy]
      · rw [if_neg hdy]
        by_cases hr1 : r - irrPayoff cfs r / irrDeriv cfs r ≤ -(999999 / 1000000)
        · rw [if_pos hr1]
        · rw [if_neg hr1]
          exact ih _ (by push_neg at hr1; linarith)

lemma xirrNewton_none {f : ℚ → Except Err FloatVal}
    (hok : ∀ s, ∃ v, f s = .ok v)
    (hbig : ∀ s, -1 < s → ∃ v, f s = .ok (.fin v) ∧ 1 / 100000000 ≤ |v|) :
    ∀ (n : ℕ) (r : ℚ), -1 < r → xirrNewton f n r = .ok none := by
  intro n
  induction n with
  | zero => intro r _; rfl
  | succ n ih =>
      intro r hr
      obtain ⟨v, hv, hvbig⟩ := hbig r hr
      obtain ⟨vp, hvp⟩ := hok (r + 1 / 1000000)
      obtain ⟨vm, hvm⟩ := hok (r - 1 / 1000000)
      have hnlt : ¬ (|v| < 1 / 100000000) := not_lt.mpr hvbig
      have hltf : ltF (absF (.fin v)) (.fin (1 / 100000000)) = false := by
        rw [absF_fin, ltF_fin]
        exact decide_eq_false hnlt
      rw [xirrNewton, hv]
      simp only [hltf, Bool.false_eq_true, if_false, hvp, hvm]
      cases hd : divF (subF vp vm) (.fin (2 / 1000000)) with
      | fin d =>
          by_cases hd0 : d = 0
          · subst hd0
            rw [if_pos (Or.inr rfl)]
          · have hcond : ¬ ((FloatVal.fin d).isFiniteF = false ∨ FloatVal.fin d = .fin 0) := by
              rintro (habs | habs)
              · simp [isFiniteF] at habs
              · exact hd0 (FloatVal.fin.inj habs)
            rw [if_neg hcond, divF_fin_of_ne _ _ hd0, subF_fin]
            by_cases hr1 : r - v / d ≤ -(999999 / 1000000)
            · simp only [if_pos hr1]
            · simp only [if_neg hr1]
              exact ih _ (by push_neg at hr1; linarith)
      | nan =>
          rw [if_pos (show FloatVal.nan.isFiniteF = false ∨ FloatVal.nan = .fin 0 from
            Or.inl rfl)]
      | inf =>
          rw [if_pos (show FloatVal.inf.isFiniteF = false ∨ FloatVal.inf = .fin 0 from
            Or.inl rfl)]
      | neginf =>
          rw [if_pos (show FloatVal.neginf.isFiniteF = false ∨ FloatVal.neginf = .fin 0 from
            Or.inl rfl)]

lemma xnpv_ok {basis : String} (hb : basis ∈ supportedBases) (pw : ℚ → ℚ → ℚ)
    (rate : FloatVal) (cfs : List ℚ) (dates : List String)
    (hlen : cfs.length = dates.length) :
    ∃ v, xnpv pw rate cfs dates basis = .ok v := by
  obtain ⟨v, hv⟩ := xnpvGo_ok hb pw rate (dates.headD ("")) (cfs.zip dates) (.fin 0)
  exact ⟨v, by rw [xnpv, if_neg (not_ne_iff.mpr hlen), hv]⟩

lemma parseDays_parseDate {s : String} {n : ℤ} (h : parseDays s = some n) :
    ∃ D, parseDate s = some D ∧ epochDays D = n := by
  rcases hD : parseDate s with _ | D
  · rw [parseDays, hD] at h
    cases h
  · rw [parseDays, hD] at h
    exact ⟨D, rfl, Option.some.inj h⟩

lemma xnpvGo_eq_npvGo {pw : ℚ → ℚ → ℚ} {r : ℚ} (hr : 0 < 1 + r) {t0 : String}
    {base0 : ℤ} (ht0 : parseDays t0 = some base0) :
    ∀ (cfs : List ℚ) (dates : List String) (i0 : ℕ) (a : ℚ),
      dates.length = cfs.length →
      (∀ j (hj : j < dates.length),
        parseDays (dates.get ⟨j, hj⟩) = some (base0 + 365 * (i0 + j))) →
      xnpvGo pw (.fin r) t0 ("ACT/365") (cfs.zip dates) (.fin a) =
        .ok (npvGo pw (.fin (1 + r)) cfs i0 (.fin a)) := by
  have hne : (1 : ℚ) + r ≠ 0 := ne_of_gt hr
  obtain ⟨Dt, hDt, hDtval⟩ := parseDays_parseDate ht0
  intro cfs
  induction cfs with
  | nil =>
      intro dates i0 a hlen _
      rw [List.length_eq_zero.mp hlen]
      rfl
  | cons cf cr ih =>
      intro dates i0 a hlen hsp
      cases dates with
      | nil => cases hlen
      | cons d dr =>
          obtain ⟨Dd, hDd, hDdval⟩ :=
            parseDays_parseDate (hsp 0 (by simp))
          have hDd2 : parseDate d = some Dd := hDd
          have hyf : yearFrac t0 d ("ACT/365") = .ok (.fin (i0 : ℚ)) := by
            rw [yearFrac_act365]
            rw [show dateMs d = .fin (86400000 * (epochDays Dd : ℚ)) from by
              simp [dateMs, hDd2]]
            rw [show dateMs t0 = .fin (86400000 * (epochDays Dt : ℚ)) from by
              simp [dateMs, hDt]]
            rw [subF_fin,
              divF_fin_of_ne _ _ (show (1000 * 60 * 60 * 24 * 365 : ℚ) ≠ 0 by norm_num)]
            have hsimp : ((epochDays Dd : ℚ)) = (base0 : ℚ) + 365 * (i0 : ℚ) := by
              have h5 : epochDays Dd = base0 + 365 * (i0 + (0 : ℕ)) := hDdval
              push_cast [h5]
              ring
            have hbase : ((epochDays Dt : ℚ)) = (base0 : ℚ) := by rw [hDtval]
            rw [hsimp, hbase,
              show (86400000 * ((base0 : ℚ) + 365 * (i0 : ℚ)) - 86400000 * (base0 : ℚ)) /
                  (1000 * 60 * 60 * 24 * 365) = (i0 : ℚ) from by
                rw [div_eq_iff (show (1000 * 60 * 60 * 24 * 365 : ℚ) ≠ 0 by norm_num)]
                ring]
          have hzip : (cf :: cr).zip (d :: dr) = (cf, d) :: cr.zip dr := rfl
          rw [hzip, xnpvGo_cons_ok hyf, addF_one_fin,
            powF_fin_natCast pw (1 + r) hne i0,
            divF_fin_of_ne _ _ (pow_ne_zero i0 hne), addF_fin]
          have hstep : npvGo pw (.fin (1 + r)) (cf :: cr) i0 (.fin a) =
              npvGo pw (.fin (1 + r)) cr (i0 + 1) (.fin (a + cf / (1 + r) ^ i0)) := by
            rw [npvGo, powF_fin_natCast pw (1 + r) hne i0,
              divF_fin_of_ne _ _ (pow_ne_zero i0 hne), addF_fin]
          rw [hstep]
          have hlen2 : dr.length = cr.length := by
            simpa using hlen
          refine ih dr (i0 + 1) (a + cf / (1 + r) ^ i0) hlen2 ?_
          intro j hj
          have hj1 : j + 1 < (d :: dr).length := by simpa using Nat.succ_lt_succ hj
          have := hsp (j + 1) hj1
          rw [show ((d :: dr).get ⟨j + 1, hj1⟩) = dr.get ⟨j, hj⟩ from rfl] at this
          rw [this]
          congr 1
          push_cast
          ring

lemma profitabilityIndex_ok {pw : ℚ → ℚ → ℚ} {rate : FloatVal} {cfs : List ℚ}
    {pv : FloatVal} (hnpv : npv pw rate (cfs.drop 1) = .ok pv) :
    profitabilityIndex pw rate cfs = .ok (divF pv (.fin |cfs.headD 0|)) := by
  rw [profitabilityIndex, hnpv]

lemma macaulayStep_zero_of_lt {face : ℚ} {m : ℕ} {y freq : ℚ} :
    ∀ (l : List ℕ), (∀ t ∈ l, t < m) → ∀ acc : ℚ × ℚ,
      l.foldl (macaulayStep 0 face m y freq) acc = acc := by
  intro l
  induction l with
  | nil => intro _ acc; rfl
  | cons t rest ih =>
      intro hmem acc
      have ht : t < m := hmem t (List.mem_cons_self t rest)
      have hstep : macaulayStep 0 face m y freq acc t = acc := by
        simp [macaulayStep, ht]
      rw [List.foldl_cons, hstep]
      exact ih (fun x hx => hmem x (List.mem_cons_of_mem t hx)) acc

lemma xirrNewton_nan {f : ℚ → Except Err FloatVal}
    (hf : ∀ r, f r = .ok FloatVal.nan) (n : ℕ) (r : ℚ) :
    xirrNewton f (n + 1) r = .ok none := by
  rw [xirrNewton, hf r]
  have h1 : ltF (absF FloatVal.nan) (.fin (1 / 100000000)) = false := rfl
  simp only [h1, Bool.false_eq_true, if_false, hf (r + 1 / 1000000),
    hf (r - 1 / 1000000)]
  rw [if_pos (show
    isFiniteF (divF (subF FloatVal.nan FloatVal.nan) (.fin (2 / 1000000))) = false ∨
      divF (subF FloatVal.nan FloatVal.nan) (.fin (2 / 1000000)) = .fin 0 from
    Or.inl rfl)]

lemma xirrBisect_nan {f : ℚ → Except Err FloatVal}
    (hf : ∀ r, f r = .ok FloatVal.nan) :
    ∀ (n : ℕ) (lo hi : ℚ) (fhi : FloatVal),
      xirrBisect f n lo hi FloatVal.nan fhi = .ok (hi - (hi - lo) / 2 ^ (n + 1)) := by
  intro n
  induction n with
  | zero =>
      intro lo hi fhi
      rw [xirrBisect]
      congr 1
      ring
  | succ n ih =>
      intro lo hi fhi
      rw [xirrBisect, hf ((lo + hi) / 2)]
      have h1 : ltF (absF FloatVal.nan) (.fin (1 / 100000000)) = false := rfl
      have h2 : leF (mulF FloatVal.nan FloatVal.nan) (.fin 0) = false := rfl
      simp only [h1, h2, Bool.false_eq_true, if_false]
      rw [ih]
      congr 1
      ring

lemma irr_eq_fallback {cfs : List ℚ} {guess : ℚ}
    (h : irrNewton cfs 50 guess = none) : irr cfs guess = irrFallback cfs := by
  show (match irrNewton cfs 50 guess with
    | some r => Except.ok r
    | none => irrFallback cfs) = irrFallback cfs
  rw [h]

lemma irrFallback_not_bracketed {cfs : List ℚ}
    (hsign : 0 < irrPayoff cfs (-(9 / 10)) * irrPayoff cfs 10) :
    irrFallback cfs = .error .RootNotBracketed := by
  simp only [irrFallback]
  rw [if_pos hsign]

lemma xirr_eq_fallback {pw : ℚ → ℚ → ℚ} {cfs : List ℚ} {dates : List String}
    {guess : ℚ} {basis : String}
    (hn : xirrNewton (fun r => xnpv pw (.fin r) cfs dates basis) 50 guess = .ok none) :
    xirr pw cfs dates guess basis = xirrFallback pw cfs dates basis := by
  simp only [xirr]
  rw [hn]

lemma xirrFallback_not_bracketed {pw : ℚ → ℚ → ℚ} {cfs : List ℚ}
    {dates : List String} {basis : String} {flo fhi : FloatVal}
    (hlo : xnpv pw (.fin (-(9 / 10))) cfs dates basis = .ok flo)
    (hhi : xnpv pw (.fin (10 : ℚ)) cfs dates basis = .ok fhi)
    (hsign : ltF (.fin 0) (mulF flo fhi) = true) :
    xirrFallback pw cfs dates basis = .error .RootNotBracketed := by
  simp only [xirrFallback]
  rw [hlo, hhi]
  show (if ltF (.fin 0) (mulF flo fhi) = true then Except.error Err.RootNotBracketed
    else xirrBisect (fun r => xnpv pw (.fin r) cfs dates basis) 200
      (-(9 / 10)) 10 flo fhi) = Except.error Err.RootNotBracketed
  rw [if_pos hsign]

lemma xirrFallback_nan {pw : ℚ → ℚ → ℚ} {cfs : List ℚ} {dates : List String}
    {basis : String}
    (hf : ∀ r, xnpv pw (.fin r) cfs dates basis = .ok FloatVal.nan) :
    xirrFallback pw cfs dates basis = .ok (10 - (10 - (-(9 / 10))) / 2 ^ 201) := by
  simp only [xirrFallback]
  rw [hf (-(9 / 10)), hf 10]
  show (if ltF (.fin 0) (mulF FloatVal.nan FloatVal.nan) = true
    then Except.error Err.RootNotBracketed
    else xirrBisect (fun r => xnpv pw (.fin r) cfs dates basis) 200
      (-(9 / 10)) 10 FloatVal.nan FloatVal.nan) =
    .ok (10 - (10 - (-(9 / 10))) / 2 ^ 201)
  rw [if_neg (by decide)]
  rw [xirrBisect_nan hf 200]

lemma xirr_nan_runs_off {pw : ℚ → ℚ → ℚ} {cfs : List ℚ} {dates : List String}
    {guess : ℚ} {basis : String}
    (hf : ∀ r, xnpv pw (.fin r) cfs dates basis = .ok FloatVal.nan) :
    xirr pw cfs dates guess basis = .ok (10 - (10 - (-(9 / 10))) / 2 ^ 201) := by
  rw [xirr_eq_fallback (xirrNewton_nan hf 49 guess), xirrFallback_nan hf]

lemma powIntQ_pos : ∀ b e : ℚ, 0 < b → 0 < powIntQ b e := by
  intro b e hb
  unfold powIntQ
  split
  · exact zpow_pos hb _
  · simp [hb]

end Lemmas

set_option maxRecDepth 40000

/-- C6: presentValue (npv) applied to a finite rate r (with 1 + r nonzero, so
that the claimed sum is defined) returns the sum of cashflows[t] / (1+r)^t
over t = 0..N-1, for every power oracle; applied to a non-finite rate (NaN or
an infinity) it fails with InvalidRate. -/
theorem npv_sum_and_invalid_rate :
    (∀ (pw : ℚ → ℚ → ℚ) (r : ℚ) (cfs : List ℚ), 1 + r ≠ 0 →
      npv pw (.fin r) cfs =
        .ok (.fin (∑ t ∈ Finset.range cfs.length, cfs.getD t 0 / (1 + r) ^ t))) ∧
    (∀ (pw : ℚ → ℚ → ℚ) (rate : FloatVal) (cfs : List ℚ), isFiniteF rate = false →
      npv pw rate cfs = .error .InvalidRate) := by
  constructor
  · intro pw r cfs h
    exact npv_fin pw h cfs
  · intro pw rate cfs h
    simp [npv, h]

/-- Witness for C6 at rate 0.1 and cashflows [-100, 50, 60] (the sum is
-100 + 50/1.1 + 60/1.21 = -600/121), and at rate NaN. -/
theorem npv_sum_and_invalid_rate_witness :
    (1 + (1 / 10 : ℚ) ≠ 0) ∧
    npv powIntQ (.fin (1 / 10)) [-100, 50, 60] = .ok (.fin (-600 / 121)) ∧
    npv powIntQ .nan [-100, 50, 60] = .error .InvalidRate := by
  refine ⟨by norm_num, ?_, ?_⟩
  · rw [npv_sum_and_invalid_rate.1 powIntQ (1 / 10) [-100, 50, 60] (by norm_num)]
    norm_num [Finset.sum_range_succ, List.getD_cons_zero, List.getD_cons_succ]
  · exact npv_sum_and_invalid_rate.2 powIntQ .nan [-100, 50, 60] rfl

/-- C8: paybackPeriod on any cashflow list whose first element is at least 0
returns -1: the cumulative sum is non-negative at index 0 already, the
interpolation fraction is 0, and the result is t - 1 + frac = -1. -/
theorem paybackPeriod_nonneg_first_returns_neg_one (c0 : ℚ) (rest : List ℚ)
    (h : 0 ≤ c0) : paybackPeriod (c0 :: rest) = .fin (-1) := by
  have hcond : (0 : ℚ) ≤ 0 + c0 := by simpa using h
  rw [paybackPeriod, paybackGo, if_pos hcond]
  by_cases hc : c0 = 0
  · simp [hc]
  · simp [hc]

/-- Witness for C8 at the one-element series [5]. -/
theorem paybackPeriod_nonneg_first_returns_neg_one_witness :
    (0 : ℚ) ≤ 5 ∧ paybackPeriod [5] = .fin (-1) :=
  ⟨by norm_num, paybackPeriod_nonneg_first_returns_neg_one 5 [] (by norm_num)⟩

/-- C10: profitabilityIndex with cashflows[0] = 0 does not fail: the unguarded
division of the discounted tail sum s by the absolute initial outlay 0 yields
Infinity when s is positive, negative Infinity when s is negative, and NaN
when s is 0 as well. -/
theorem profitabilityIndex_zero_outlay_unguarded (pw : ℚ → ℚ → ℚ) (r : ℚ)
    (rest : List ℚ) (h : 1 + r ≠ 0) :
    profitabilityIndex pw (.fin r) (0 :: rest) =
      .ok (if 0 < ∑ t ∈ Finset.range rest.length, rest.getD t 0 / (1 + r) ^ t
           then FloatVal.inf
           else if (∑ t ∈ Finset.range rest.length, rest.getD t 0 / (1 + r) ^ t) < 0
           then FloatVal.neginf else FloatVal.nan) := by
  rw [profitabilityIndex_ok (npv_fin pw h rest)]
  simp only [List.headD_cons, abs_zero, divF_fin_zero]

/-- Witness for C10: a positive tail gives Infinity, an empty tail (sum 0)
gives NaN. -/
theorem profitabilityIndex_zero_outlay_unguarded_witness :
    (1 + (1 / 10 : ℚ) ≠ 0) ∧
    profitabilityIndex powIntQ (.fin (1 / 10)) [0, 11] = .ok FloatVal.inf ∧
    profitabilityIndex powIntQ (.fin (1 / 10)) [0] = .ok FloatVal.nan := by
  refine ⟨by norm_num, ?_, ?_⟩
  · rw [profitabilityIndex_zero_outlay_unguarded powIntQ (1 / 10) [11] (by norm_num)]
    norm_num [Finset.sum_range_succ, List.getD_cons_zero]
  · rw [profitabilityIndex_zero_outlay_unguarded powIntQ (1 / 10) [] (by norm_num)]
    norm_num

/-- C4 counterexample: at rate 0.1 and cashflows [-100, 110] the code returns
110 / 1.1^0 / 100 = 1.1, not the claimed sum over t = 1..N-1 of
c[t] / (1+r)^t divided by the initial outlay, which is 110 / 1.1^1 / 100 = 1:
the slice npv re-indexes the tail from exponent 0, not from exponent 1. -/
theorem profitabilityIndex_discounting_counterexample :
    profitabilityIndex powIntQ (.fin (1 / 10)) [-100, 110] = .ok (.fin (11 / 10)) ∧
    ¬ ((11 / 10 : ℚ) = 110 / (1 + 1 / 10) ^ 1 / |(-100 : ℚ)|) := by
  constructor
  · with_unfolding_all decide
  · norm_num

/-- C4 (amended): for a finite rate r with 1 + r nonzero and a first cashflow
c0 that is nonzero, profitabilityIndex(r, c0 :: rest) equals the npv of the
re-indexed tail — the sum over t = 0..N-2 of rest[t] / (1+r)^t, that is
c[t] / (1+r)^(t-1) in original indices — divided by the absolute value of
c0. -/
theorem profitabilityIndex_shifted_pv (pw : ℚ → ℚ → ℚ) (r c0 : ℚ)
    (rest : List ℚ) (hr : 1 + r ≠ 0) (hc0 : c0 ≠ 0) :
    profitabilityIndex pw (.fin r) (c0 :: rest) =
      .ok (.fin ((∑ t ∈ Finset.range rest.length, rest.getD t 0 / (1 + r) ^ t) / |c0|)) := by
  rw [profitabilityIndex_ok (npv_fin pw hr rest)]
  simp only [List.headD_cons]
  rw [divF_fin_of_ne _ _ (abs_ne_zero.mpr hc0)]

/-- Witness for the amended C4 at rate 0.1 and cashflows [-100, 110]. -/
theorem profitabilityIndex_shifted_pv_witness :
    (1 + (1 / 10 : ℚ) ≠ 0) ∧ ((-100 : ℚ) ≠ 0) ∧
    profitabilityIndex powIntQ (.fin (1 / 10)) [-100, 110] =
      .ok (.fin (110 / 100)) := by
  refine ⟨by norm_num, by norm_num, ?_⟩
  rw [profitabilityIndex_shifted_pv powIntQ (1 / 10) (-100) [110] (by norm_num) (by norm_num)]
  norm_num [Finset.sum_range_succ, List.getD_cons_zero]

/-- C2: the round-trip bondYield(face, coupon, bondPrice(face, coupon, y,
years, freq), years, freq) is NOT within 1e-6 of y at face 1e-9, coupon 0,
y = 0.3, years 1, freq 1, although face > 0, coupon ≥ 0, round(years*freq) ≥ 1
and y lies in (0, 0.5): the whole bond is worth about 1e-9, so the absolute
Newton tolerance |f| < 1e-8 on the price residual is met immediately at the
seed 0.05, and the solver returns 0.05 with error 0.25. -/
theorem bondYield_roundtrip_failing_eval :
    (0 < (1 / 1000000000 : ℚ) ∧ (0 : ℚ) ≤ 0 ∧ 1 ≤ jsRound ((1 : ℚ) * 1) ∧
      0 < (3 / 10 : ℚ) ∧ (3 / 10 : ℚ) < 1 / 2) ∧
    bondPrice (1 / 1000000000) 0 (3 / 10) 1 1 = 1 / 1300000000 ∧
    bondYield (1 / 1000000000) 0 (bondPrice (1 / 1000000000) 0 (3 / 10) 1 1) 1 1 =
      .ok (1 / 20) ∧
    1 / 1000000 < |(1 / 20 : ℚ) - 3 / 10| := by
  refine ⟨⟨by norm_num, by norm_num, by with_unfolding_all decide, by norm_num, by norm_num⟩,
    ?_, ?_, by with_unfolding_all decide⟩
  · norm_num [bondPrice, jsRound, (by decide : Int.fdiv 3 2 = 1)]
  · with_unfolding_all decide

/-- C5 counterexample: for years = 10.3 and freq = 2 the zero-coupon duration
is round(20.6)/2 = 10.5, not the years value 10.3. -/
theorem macaulayDuration_fractional_years_counterexample :
    macaulayDuration 1000 0 (6 / 100) (103 / 10) 2 = 21 / 2 ∧
    (21 / 2 : ℚ) ≠ 103 / 10 := by
  constructor
  · with_unfolding_all decide
  · norm_num

/-- C5 (amended): the Macaulay duration of a zero-coupon bond equals
round(years * freq) / freq exactly; it equals years exactly precisely when
years * freq is already the rounded integer. -/
theorem macaulayDuration_zero_coupon (face yieldRate years freq : ℚ)
    (hface : 0 < face) (hfreq : 0 < freq) (hy : 0 < 1 + yieldRate / freq)
    (hm : 1 ≤ jsRound (years * freq)) :
    macaulayDuration face 0 yieldRate years freq =
      (jsRound (years * freq) : ℚ) / freq ∧
    (years * freq = (jsRound (years * freq) : ℚ) →
      macaulayDuration face 0 yieldRate years freq = years) := by
  have hmain : macaulayDuration face 0 yieldRate years freq =
      (jsRound (years * freq) : ℚ) / freq := by
    obtain ⟨k, hk⟩ : ∃ k, (jsRound (years * freq)).toNat = k + 1 :=
      ⟨(jsRound (years * freq)).toNat - 1, by omega⟩
    have hjk : jsRound (years * freq) = ((k + 1 : ℕ) : ℤ) := by omega
    have hc0 : (0 : ℚ) * face / freq = 0 := by norm_num
    have hnot : ¬ (1 + k < k + 1) := by omega
    have hpv : face / (1 + yieldRate / freq) ^ (1 + k) ≠ 0 :=
      div_ne_zero (ne_of_gt hface) (pow_ne_zero _ (ne_of_gt hy))
    simp only [macaulayDuration, hc0, hk]
    rw [List.range'_concat]
    simp only [one_mul]
    rw [List.foldl_append,
      macaulayStep_zero_of_lt (List.range' 1 k)
        (fun t ht => by
          have := List.mem_range'_1.mp ht
          omega) ((0 : ℚ), (0 : ℚ))]
    simp only [List.foldl_cons, List.foldl_nil, macaulayStep, if_neg hnot, zero_add]
    rw [hjk, mul_div_cancel_right₀ _ hpv]
    push_cast
    ring
  refine ⟨hmain, fun hint => ?_⟩
  rw [hmain, ← hint, mul_div_assoc, div_self (ne_of_gt hfreq), mul_one]

/-- C7: presentValueByDate (xnpv) on basis ACT/365 with dates lying exactly
365*i days after dates[0] equals presentValue (npv) at the same rate and
cashflows (rates r with 1 + r > 0; the year fractions are the exact integers
0, 1, 2, ...). -/
theorem xnpv_365_spaced_eq_npv (pw : ℚ → ℚ → ℚ) (r : ℚ) (cfs : List ℚ)
    (dates : List String) (base0 : ℤ) (hr : 0 < 1 + r)
    (hlen : cfs.length = dates.length)
    (hsp : ∀ i (hi : i < dates.length),
      parseDays (dates.get ⟨i, hi⟩) = some (base0 + 365 * i)) :
    xnpv pw (.fin r) cfs dates ("ACT/365") = npv pw (.fin r) cfs := by
  rw [xnpv, if_neg (not_ne_iff.mpr hlen), npv]
  simp only [isFiniteF, if_true]
  rw [addF_one_fin]
  cases dates with
  | nil =>
      rw [List.length_eq_zero.mp (hlen.symm ▸ rfl : cfs.length = 0)]
      rfl
  | cons d0 dr =>
      have ht0 : parseDays d0 = some base0 := by
        have := hsp 0 (by simp)
        simpa using this
      rw [List.headD_cons]
      exact xnpvGo_eq_npvGo hr ht0 cfs (d0 :: dr) 0 0 hlen.symm
        (fun j hj => by simpa using hsp j hj)

/-- Witness for C7 at rate 0.1, cashflows [-100, 110] and the dates
2025-01-01 and 2026-01-01, which are exactly 365 days apart. -/
theorem xnpv_365_spaced_eq_npv_witness :
    ((0 : ℚ) < 1 + 1 / 10) ∧
    xnpv powIntQ (.fin (1 / 10)) [-100, 110] ["2025-01-01", "2026-01-01"]
      ("ACT/365") = npv powIntQ (.fin (1 / 10)) [-100, 110] := by
  refine ⟨by norm_num, ?_⟩
  refine xnpv_365_spaced_eq_npv powIntQ (1 / 10) [-100, 110]
    ["2025-01-01", "2026-01-01"] 20089 (by norm_num) rfl ?_
  intro i hi
  rcases i with _ | _ | n
  · show parseDays ("2025-01-01") = some (20089 + 365 * ((0 : ℕ) : ℤ))
    decide
  · show parseDays ("2026-01-01") = some (20089 + 365 * ((0 + 1 : ℕ) : ℤ))
    decide
  · exact absurd hi (by simp)

/-- C9 counterexample: at the non-finite rate Infinity and matching lists the
code returns the finite number cashflows[0] = 100 (1 + Infinity = Infinity,
Math.pow(Infinity, 0) = 1 and 50 / Math.pow(Infinity, 1) = 0), refuting the
claim that every non-finite rate yields a non-finite result. -/
theorem xnpv_nonfinite_rate_finite_result :
    xnpv powIntQ .inf [100, 50] ["2025-01-01", "2026-01-01"] ("ACT/365") =
      .ok (.fin 100) ∧
    isFiniteF (.fin (100 : ℚ)) = true := by
  exact ⟨by with_unfolding_all decide, rfl⟩

/-- C9 (amended): presentValueByDate (xnpv) performs no finiteness check on
its rate: for every rate (non-finite ones included), supported basis and
equal-length lists it returns a value and never fails with InvalidRate,
unlike presentValue (npv), which throws InvalidRate on NaN; with rate NaN and
a later date differing from dates[0] the returned value is NaN, but it can
also be finite (see the counterexample). -/
theorem xnpv_no_rate_check :
    (∀ (pw : ℚ → ℚ → ℚ) (rate : FloatVal) (cfs : List ℚ) (dates : List String)
      (basis : String), basis ∈ supportedBases → cfs.length = dates.length →
      ∃ v, xnpv pw rate cfs dates basis = .ok v) ∧
    npv powIntQ .nan [100, 50] = .error .InvalidRate ∧
    xnpv powIntQ .nan [100, 50] ["2025-01-01", "2026-01-01"] ("ACT/365") =
      .ok FloatVal.nan := by
  refine ⟨fun pw rate cfs dates basis hb hlen => xnpv_ok hb pw rate cfs dates hlen,
    rfl, ?_⟩
  with_unfolding_all decide

/-- Witness for C9 at rate NaN, the basis ACT/365 and equal-length lists. -/
theorem xnpv_no_rate_check_witness :
    ("ACT/365" ∈ supportedBases ∧
      [(100 : ℚ), 50].length = (["2025-01-01", "2026-01-01"] : List String).length) ∧
    ∃ v, xnpv powIntQ .nan [100, 50] ["2025-01-01", "2026-01-01"] ("ACT/365") =
      .ok v :=
  ⟨⟨by simp [supportedBases], rfl⟩,
    xnpv_no_rate_check.1 powIntQ .nan [100, 50] ["2025-01-01", "2026-01-01"]
      ("ACT/365") (by simp [supportedBases]) rfl⟩

/-- C3 (code bug, evaluation at the failing input): an unparseable date does
NOT make yearFrac - nor xnpv and xirr, which call it - fail with InvalidDate.
The guard in the source applies Number.isNaN to a Date object, and
Number.isNaN does not coerce, so the guard is always false and the invalid
date flows through as a NaN timestamp: yearFrac returns NaN, xnpv returns
NaN, and xirr runs its entire bisection against the constantly-NaN payoff
(every comparison with NaN is false, so the bracket test cannot throw) and
returns the meaningless number 10 - 10.9/2^201 just under the upper bracket
end instead of raising any error. -/
theorem yearFrac_invalid_date_returns_nan_eval :
    yearFrac ("2025-02-30") ("2025-01-01") ("ACT/365") = .ok FloatVal.nan ∧
    xnpv powIntQ (.fin (1 / 10)) [100] ["2025-02-30"] ("ACT/365") =
      .ok FloatVal.nan ∧
    xirr powIntQ [100] ["2025-02-30"] (1 / 10) ("ACT/365") =
      .ok (10 - (10 - (-(9 / 10))) / 2 ^ 201) := by
  have hf : ∀ r : ℚ, xnpv powIntQ (.fin r) [100] ["2025-02-30"] ("ACT/365") =
      .ok FloatVal.nan := by
    intro r
    have hy : yearFrac ("2025-02-30") ("2025-02-30") ("ACT/365") =
        .ok FloatVal.nan := by decide
    rw [xnpv, if_neg (by decide)]
    rw [show ([(100 : ℚ)].zip ["2025-02-30"]) = [((100 : ℚ), "2025-02-30")] from rfl]
    rw [show ((["2025-02-30"] : List String).headD ("")) = "2025-02-30" from rfl]
    rw [xnpvGo_cons_ok hy, powF_e_nan]
    rfl
  exact ⟨by decide, hf (1 / 10), xirr_nan_runs_off hf⟩

/-- C1 counterexample: a one-element all-positive series with a tiny entry
converges in the very first Newton iteration (|payoff| is below the
tolerance), so neither irr nor xirr throws RootNotBracketed. -/
theorem irr_xirr_small_entries_converge :
    ((0 : ℚ) < 1 / 100000000000 ∧ (0 : ℚ) < 1 / 1000000000) ∧
    irr [1 / 100000000000] (1 / 10) = .ok (1 / 10) ∧
    xirr powIntQ [1 / 1000000000] ["2025-01-01"] (1 / 10) ("ACT/365") =
      .ok (1 / 10) := by
  exact ⟨⟨by norm_num, by norm_num⟩, by with_unfolding_all decide,
    by with_unfolding_all decide⟩

/-- C1 (amended): on a cashflow series that is all strictly positive or all
strictly negative with |first entry| at least the Newton tolerance 1e-8 (the
irr tolerance 1e-10 is below it), and any guess above the -1 rate floor, irr
fails with RootNotBracketed; so does xirr on any matching-length list of
valid dates and any supported basis, for every power oracle that is positive
on positive bases: the payoff keeps the sign of the first entry with at least
its magnitude, the Newton phase can never meet the tolerance, and both
bracket endpoints have the same payoff sign. -/
theorem irr_xirr_allpos_allneg_not_bracketed
    (pw : ℚ → ℚ → ℚ) (c0 : ℚ) (rest : List ℚ) (dates : List String)
    (guess : ℚ) (basis : String)
    (hpw : ∀ b e, 0 < b → 0 < pw b e)
    (hguess : -1 < guess)
    (hb : basis ∈ supportedBases)
    (hlen : dates.length = (c0 :: rest).length)
    (hvalid : ∀ d ∈ dates, (parseDate d).isSome = true)
    (hsign : (1 / 100000000 ≤ c0 ∧ ∀ x ∈ c0 :: rest, 0 < x) ∨
             (c0 ≤ -(1 / 100000000) ∧ ∀ x ∈ c0 :: rest, x < 0)) :
    irr (c0 :: rest) guess = .error .RootNotBracketed ∧
    xirr pw (c0 :: rest) dates guess basis = .error .RootNotBracketed := by
  constructor
  · have hbig : ∀ s, -1 < s → 1 / 10000000000 ≤ |irrPayoff (c0 :: rest) s| := by
      intro s hs
      have hr : (0 : ℚ) < 1 + s := by linarith
      rcases hsign with ⟨hc0, hall⟩ | ⟨hc0, hall⟩
      · calc (1 : ℚ) / 10000000000 ≤ 1 / 100000000 := by norm_num
          _ ≤ c0 := hc0
          _ ≤ irrPayoff (c0 :: rest) s := irrPayoff_lb hr hall
          _ ≤ |irrPayoff (c0 :: rest) s| := le_abs_self _
      · have h1 : irrPayoff (c0 :: rest) s ≤ -(1 / 100000000) :=
          le_trans (irrPayoff_ub hr hall) hc0
        calc (1 : ℚ) / 10000000000 ≤ 1 / 100000000 := by norm_num
          _ ≤ -(irrPayoff (c0 :: rest) s) := by linarith
          _ ≤ |irrPayoff (c0 :: rest) s| := neg_le_abs _
    rw [irr_eq_fallback (irrNewton_none hbig 50 guess hguess)]
    apply irrFallback_not_bracketed
    rcases hsign with ⟨hc0, hall⟩ | ⟨hc0, hall⟩
    · have hlo := irrPayoff_lb (show (0 : ℚ) < 1 + -(9 / 10) by norm_num) hall
      have hhi := irrPayoff_lb (show (0 : ℚ) < 1 + 10 by norm_num) hall
      have hc0pos : 0 < c0 := lt_of_lt_of_le (by norm_num) hc0
      exact mul_pos (lt_of_lt_of_le hc0pos hlo) (lt_of_lt_of_le hc0pos hhi)
    · have hlo := irrPayoff_ub (show (0 : ℚ) < 1 + -(9 / 10) by norm_num) hall
      have hhi := irrPayoff_ub (show (0 : ℚ) < 1 + 10 by norm_num) hall
      have hc0neg : c0 < 0 := lt_of_le_of_lt hc0 (by norm_num)
      exact mul_pos_of_neg_of_neg (lt_of_le_of_lt hlo hc0neg)
        (lt_of_le_of_lt hhi hc0neg)
  · cases dates with
    | nil => simp at hlen
    | cons d0 dr =>
        obtain ⟨D0, hD0⟩ :=
          Option.isSome_iff_exists.mp (hvalid d0 (List.mem_cons_self d0 dr))
        have hlen2 : (c0 :: rest).length = (d0 :: dr).length := hlen.symm
        have hok : ∀ s : ℚ, ∃ v,
            xnpv pw (.fin s) (c0 :: rest) (d0 :: dr) basis = .ok v :=
          fun s => xnpv_ok hb pw (.fin s) (c0 :: rest) (d0 :: dr) hlen2
        have hyf : yearFrac d0 d0 basis = .ok (.fin 0) :=
          yearFrac_self_of_valid hb hD0
        have hstep : ∀ s : ℚ, xnpv pw (.fin s) (c0 :: rest) (d0 :: dr) basis =
            xnpvGo pw (.fin s) d0 basis (rest.zip dr) (.fin c0) := by
          intro s
          rw [xnpv, if_neg (not_ne_iff.mpr hlen2), List.headD_cons]
          rw [show ((c0 :: rest).zip (d0 :: dr)) = (c0, d0) :: rest.zip dr from rfl]
          rw [xnpvGo_cons_ok hyf, powF_e_zero,
            divF_fin_of_ne _ _ one_ne_zero, addF_fin]
          norm_num
        rcases hsign with ⟨hc0, hall⟩ | ⟨hc0, hall⟩
        · have hc0pos : 0 < c0 := lt_of_lt_of_le (by norm_num) hc0
          have hzipmem : ∀ p ∈ rest.zip dr, 0 < p.1 ∧ (parseDate p.2).isSome = true := by
            intro p hp
            obtain ⟨h1, h2⟩ := List.of_mem_zip hp
            exact ⟨hall p.1 (List.mem_cons_of_mem c0 h1),
              hvalid p.2 (List.mem_cons_of_mem d0 h2)⟩
          have key : ∀ s : ℚ, -1 < s → ∃ v : ℚ,
              xnpv pw (.fin s) (c0 :: rest) (d0 :: dr) basis = .ok (.fin v) ∧
              c0 ≤ v := by
            intro s hs
            have hr : (0 : ℚ) < 1 + s := by linarith
            obtain ⟨v, hgo, hle⟩ := xnpvGo_lb hb hpw hr hD0 (rest.zip dr) hzipmem c0
            exact ⟨v, by rw [hstep s, hgo], hle⟩
          have hbig : ∀ s : ℚ, -1 < s → ∃ v : ℚ,
              xnpv pw (.fin s) (c0 :: rest) (d0 :: dr) basis = .ok (.fin v) ∧
              1 / 100000000 ≤ |v| := by
            intro s hs
            obtain ⟨v, hv, hle⟩ := key s hs
            exact ⟨v, hv, le_trans (le_trans hc0 hle) (le_abs_self v)⟩
          rw [xirr_eq_fallback (xirrNewton_none hok hbig 50 guess hguess)]
          obtain ⟨vlo, hvlo, hlelo⟩ := key (-(9 / 10)) (by norm_num)
          obtain ⟨vhi, hvhi, hlehi⟩ := key 10 (by norm_num)
          apply xirrFallback_not_bracketed hvlo hvhi
          have hprod : 0 < vlo * vhi :=
            mul_pos (lt_of_lt_of_le hc0pos hlelo) (lt_of_lt_of_le hc0pos hlehi)
          rw [show mulF (.fin vlo) (.fin vhi) = .fin (vlo * vhi) from rfl, ltF_fin]
          exact decide_eq_true hprod
        · have hc0neg : c0 < 0 := lt_of_le_of_lt hc0 (by norm_num)
          have hzipmem : ∀ p ∈ rest.zip dr, p.1 < 0 ∧ (parseDate p.2).isSome = true := by
            intro p hp
            obtain ⟨h1, h2⟩ := List.of_mem_zip hp
            exact ⟨hall p.1 (List.mem_cons_of_mem c0 h1),
              hvalid p.2 (List.mem_cons_of_mem d0 h2)⟩
          have key : ∀ s : ℚ, -1 < s → ∃ v : ℚ,
              xnpv pw (.fin s) (c0 :: rest) (d0 :: dr) basis = .ok (.fin v) ∧
              v ≤ c0 := by
            intro s hs
            have hr : (0 : ℚ) < 1 + s := by linarith
            obtain ⟨v, hgo, hle⟩ := xnpvGo_ub hb hpw hr hD0 (rest.zip dr) hzipmem c0
            exact ⟨v, by rw [hstep s, hgo], hle⟩
          have hbig : ∀ s : ℚ, -1 < s → ∃ v : ℚ,
              xnpv pw (.fin s) (c0 :: rest) (d0 :: dr) basis = .ok (.fin v) ∧
              1 / 100000000 ≤ |v| := by
            intro s hs
            obtain ⟨v, hv, hle⟩ := key s hs
            have : v ≤ -(1 / 100000000) := le_trans hle hc0
            exact ⟨v, hv, le_trans (by linarith) (neg_le_abs v)⟩
          rw [xirr_eq_fallback (xirrNewton_none hok hbig 50 guess hguess)]
          obtain ⟨vlo, hvlo, hlelo⟩ := key (-(9 / 10)) (by norm_num)
          obtain ⟨vhi, hvhi, hlehi⟩ := key 10 (by norm_num)
          apply xirrFallback_not_bracketed hvlo hvhi
          have hprod : 0 < vlo * vhi :=
            mul_pos_of_neg_of_neg (lt_of_le_of_lt hlelo hc0neg)
              (lt_of_le_of_lt hlehi hc0neg)
          rw [show mulF (.fin vlo) (.fin vhi) = .fin (vlo * vhi) from rfl, ltF_fin]
          exact decide_eq_true hprod

/-- Witness for the amended C1: the all-positive series [2] with the default
guess 0.1 and the single valid date 2025-01-01. -/
theorem irr_xirr_allpos_allneg_not_bracketed_witness :
    ((-1 : ℚ) < 1 / 10 ∧ (1 / 100000000 : ℚ) ≤ 2 ∧
      "ACT/365" ∈ supportedBases ∧ (parseDate ("2025-01-01")).isSome = true) ∧
    irr [2] (1 / 10) = .error .RootNotBracketed ∧
    xirr powIntQ [2] ["2025-01-01"] (1 / 10) ("ACT/365") =
      .error .RootNotBracketed := by
  have h := irr_xirr_allpos_allneg_not_bracketed powIntQ 2 [] ["2025-01-01"]
    (1 / 10) ("ACT/365") powIntQ_pos (by norm_num) (by simp [supportedBases]) rfl
    (fun d hd => by
      rw [show d = "2025-01-01" from by simpa using hd]
      decide)
    (Or.inl ⟨by norm_num, fun x hx => by
      rw [show x = (2 : ℚ) from by simpa using hx]
      norm_num⟩)
  exact ⟨⟨by norm_num, by norm_num, by simp [supportedBases], by decide⟩, h.1, h.2⟩

/-- Witness for the amended C5: face 1000, yield 0.06, years 10.3, freq 2
gives duration round(20.6)/2 = 21/2. -/
theorem macaulayDuration_zero_coupon_witness :
    ((0 : ℚ) < 1000 ∧ (0 : ℚ) < 2 ∧ (0 : ℚ) < 1 + 6 / 100 / 2 ∧
      1 ≤ jsRound ((103 / 10 : ℚ) * 2)) ∧
    macaulayDuration 1000 0 (6 / 100) (103 / 10) 2 = (21 : ℚ) / 2 := by
  have h := (macaulayDuration_zero_coupon 1000 (6 / 100) (103 / 10) 2
    (by norm_num) (by norm_num) (by norm_num) (by with_unfolding_all decide)).1
  refine ⟨⟨by norm_num, by norm_num, by norm_num, by with_unfolding_all decide⟩, ?_⟩
  rw [h]
  with_unfolding_all decide

end Fincalc
